import Mathlib

/-!
Verification of the Concerto runtime type-resolution and introspection layer:
a shallow embedding of `lib/modelutil.js` (the `ModelUtil` class) and
`lib/concerto.js` (the tagged-object introspection functions), together with
theorems checking the specified behaviour.

Strings are handled at the level of their character lists; the JavaScript
string primitives used by the source (`lastIndexOf`, `substr`, `split`,
`replace`) are modelled by the list functions below.
-/

/-! ## Models of the JavaScript string primitives -/

/-- One step of `lastIndexOf`: shift an index found in the tail by one, or
report position 0 when the head character matches. -/
def shiftIndex (c ch : Char) : Option Nat → Option Nat
  | some j => some (j + 1)
  | none => if c = ch then some 0 else none

/-- `String.prototype.lastIndexOf` for a single character, on the character
list: the index of the last occurrence of `ch`, or `none` when absent
(the source's `-1`). -/
def lastIndexOf (ch : Char) : List Char → Option Nat
  | [] => none
  | c :: cs => shiftIndex c ch (lastIndexOf ch cs)

/-- Helper for `splitChar`: prepend a character to the first piece of a split
result. -/
def consHead (c : Char) : List (List Char) → List (List Char)
  | [] => [[]]
  | p :: ps => (c :: p) :: ps

/-- `String.prototype.split` with a single-character separator: always returns
at least one piece; `n` separators give `n + 1` pieces. -/
def splitChar (sep : Char) : List Char → List (List Char)
  | [] => [[]]
  | c :: cs => if c = sep then [] :: splitChar sep cs else consHead c (splitChar sep cs)

/-- `String.prototype.replace` with single-character pattern and replacement:
replaces only the FIRST occurrence of `sep`, like the JavaScript method with
a string pattern. -/
def replaceFirst (rep sep : Char) : List Char → List Char
  | [] => []
  | c :: cs => if c = sep then rep :: cs else c :: replaceFirst rep sep cs

/-! ## Data model: declarations, registry, tagged objects, errors -/

/-- A JavaScript string-or-absent value. `TypeDeclaration.getIdentifierFieldName`
can report a string, `null`, or `undefined`; the source distinguishes the
falsy test `!idField` from the strict test `idField !== null`. -/
inductive JsStr where
  | jsNull
  | jsUndefined
  | str (s : String)
deriving DecidableEq, Repr

/-- JavaScript truthiness for a string-or-absent value: `null`, `undefined`
and the empty string are falsy. -/
def JsStr.falsy : JsStr → Bool
  | .jsNull => true
  | .jsUndefined => true
  | .str s => s == ""

/-- JavaScript property-key coercion: `obj[k]` coerces a non-string key, so
`obj[null]` addresses the property named `"null"` and `obj[undefined]` the
property named `"undefined"`. -/
def JsStr.toPropertyKey : JsStr → String
  | .jsNull => "null"
  | .jsUndefined => "undefined"
  | .str s => s

/-- The `TypeDeclaration` capability consumed by the source (§6 of the spec):
fully-qualified name, at most one direct supertype, the transitive supertype
declarations (ancestors only), and an optional identifier field name. -/
inductive TypeDecl where
  | mk (fqn : String) (superType : Option TypeDecl)
       (allSuperTypes : List TypeDecl) (identifierFieldName : JsStr)

/-- `TypeDeclaration.getFullyQualifiedName()`. -/
def TypeDecl.getFullyQualifiedName : TypeDecl → String
  | .mk f _ _ _ => f

/-- `TypeDeclaration.getSuperTypeDeclaration()`. -/
def TypeDecl.getSuperTypeDeclaration : TypeDecl → Option TypeDecl
  | .mk _ s _ _ => s

/-- `TypeDeclaration.getAllSuperTypeDeclarations()`. -/
def TypeDecl.getAllSuperTypeDeclarations : TypeDecl → List TypeDecl
  | .mk _ _ a _ => a

/-- `TypeDeclaration.getIdentifierFieldName()`. -/
def TypeDecl.getIdentifierFieldName : TypeDecl → JsStr
  | .mk _ _ _ i => i

/-- The registry capability (`modelManager` in `concerto.js`, `modelFile` in
`modelutil.js`): maps a fully-qualified type name to its declaration or to an
absent result. -/
def Registry := String → Option TypeDecl

/-- `Registry.getType(fqn)`. -/
def Registry.getType (r : Registry) (fqn : String) : Option TypeDecl := r fqn

/-- The `Property` capability: exposes the fully-qualified type name it is
declared to hold. -/
structure Property where
  fullyQualifiedTypeName : String
deriving DecidableEq, Repr

/-- `Property.getFullyQualifiedTypeName()`. -/
def Property.getFullyQualifiedTypeName (p : Property) : String :=
  p.fullyQualifiedTypeName

/-- A tagged runtime object: the optional `$class` discriminator, the optional
`$relationship` marker, and the remaining own properties in insertion order. -/
structure TaggedObject where
  classTag : Option String
  relationship : Option Bool
  fields : List (String × String)
deriving DecidableEq, Repr

/-- Property read `obj[key]`: `none` models the JavaScript `undefined` result
for an absent property. -/
def TaggedObject.getField (obj : TaggedObject) (key : String) : Option String :=
  (obj.fields.find? (fun kv => kv.1 == key)).map (fun kv => kv.2)

/-- Property write `obj[key] = v`: overwrite in place when the key exists,
otherwise append (JavaScript insertion-order semantics). -/
def TaggedObject.setField (obj : TaggedObject) (key : String) (v : String) :
    TaggedObject :=
  if obj.fields.any (fun kv => kv.1 == key) then
    { obj with fields := obj.fields.map (fun kv => if kv.1 == key then (key, v) else kv) }
  else
    { obj with fields := obj.fields ++ [(key, v)] }

/-- The `$class` value as it appears in a template literal: an absent field
interpolates as `"undefined"`. -/
def TaggedObject.classTagString (obj : TaggedObject) : String :=
  match obj.classTag with
  | some c => c
  | none => "undefined"

/-- Value-to-string coercion used by template literals and `encodeURI` on the
result of `getIdentifier`: `undefined` becomes `"undefined"`. -/
def jsValueToString : Option String → String
  | some s => s
  | none => "undefined"

/-- The error kinds the source throws, classified as in §7 of the spec. -/
inductive ConcertoError where
  | missingTypeTag
  | unknownType (typeName : String)
  | notIdentifiable
  | invalidArgument (msg : String)
deriving DecidableEq, Repr

/-! ## ModelUtil (`lib/modelutil.js`) -/

namespace ModelUtil

/-- `ModelUtil.getShortName(fqn)`: everything after the last dot, or the whole
string when there is no dot. -/
def getShortName (fqn : String) : String :=
  match lastIndexOf '.' fqn.toList with
  | none => fqn
  | some dotIndex => String.mk (fqn.toList.drop (dotIndex + 1))

/-- `ModelUtil.getNamespace(fqn)`: throws when `fqn` is falsy (the empty
string); otherwise everything before the last dot, or the empty string when
there is no dot. -/
def getNamespace (fqn : String) : Except ConcertoError String :=
  if fqn = "" then .error (.invalidArgument "modelutil-getnamespace-nofnq")
  else
    match lastIndexOf '.' fqn.toList with
    | none => .ok ""
    | some dotIndex => .ok (String.mk (fqn.toList.take dotIndex))

/-- The result record of `ModelUtil.parseNamespace`. `semver.parse` returns a
structured object exactly when the version string is valid; since the source
only ever produces it for an already-validated version, the parsed value is
modelled by the version string itself. -/
structure ParseNamespaceResult where
  name : String
  escapedNamespace : String
  version : Option String
  versionParsed : Option String
deriving DecidableEq, Repr

/-- `ModelUtil.parseNamespace(ns)`. The semantic-version validity test
(`semver.valid`, an external library) is passed in as the predicate
`semverValid`. The source splits on `@`, rejects more than two parts, rejects
a two-part split whose second part is not a valid semantic version, and
otherwise succeeds; `ns.replace('@', '_')` replaces only the first `@`.
`splitChar` never returns `[]` (`splitChar_ne_nil`), so the `[]` branch of the
match is unreachable; lists of three or more pieces are the source's
`parts.length > 2` rejection. -/
def parseNamespace (semverValid : String → Bool) (ns : String) :
    Except ConcertoError ParseNamespaceResult :=
  if ns = "" then .error (.invalidArgument "Namespace is null or undefined.")
  else
    match splitChar '@' ns.toList with
    | [p0] =>
      .ok { name := String.mk p0
            escapedNamespace := String.mk (replaceFirst '_' '@' ns.toList)
            version := none
            versionParsed := none }
    | [p0, p1] =>
      if semverValid (String.mk p1) then
        .ok { name := String.mk p0
              escapedNamespace := String.mk (replaceFirst '_' '@' ns.toList)
              version := some (String.mk p1)
              versionParsed := some (String.mk p1) }
      else .error (.invalidArgument ("Invalid namespace " ++ ns))
    | _ => .error (.invalidArgument ("Invalid namespace " ++ ns))

/-- The fixed primitive-type name list of `ModelUtil.isPrimitiveType`. -/
def primitiveTypes : List String :=
  ["Boolean", "String", "DateTime", "Double", "Integer", "Long"]

/-- `ModelUtil.isPrimitiveType(typeName)`: membership in the fixed primitive
list (the source tests `indexOf >= 0`). -/
def isPrimitiveType (typeName : String) : Bool :=
  decide (typeName ∈ primitiveTypes)

/-- `ModelUtil.isAssignableTo(modelFile, typeName, property)`. -/
def isAssignableTo (modelFile : Registry) (typeName : String)
    (property : Property) : Except ConcertoError Bool :=
  let propertyTypeName := property.getFullyQualifiedTypeName
  let isDirectMatch := typeName == propertyTypeName
  if isDirectMatch || isPrimitiveType typeName || isPrimitiveType propertyTypeName then
    .ok isDirectMatch
  else
    match modelFile.getType typeName with
    | none => .error (.unknownType typeName)
    | some typeDeclaration =>
      .ok (typeDeclaration.getAllSuperTypeDeclarations.any
        (fun t => t.getFullyQualifiedName == propertyTypeName))

/-- `ModelUtil.getFullyQualifiedName(namespace, type)`: `"namespace.type"`
when the namespace is truthy (non-empty), else the type unchanged. -/
def getFullyQualifiedName (ns ty : String) : String :=
  if ns ≠ "" then ns ++ "." ++ ty else ty

end ModelUtil

/-! ## Concerto object introspection (`lib/concerto.js`) -/

namespace Concerto

/-- `checkConcertoObject(obj, modelManager)`: throws when `$class` is falsy
(absent or the empty string), then resolves it in the registry, throwing when
it does not resolve; returns the resolved declaration. -/
def checkConcertoObject (obj : TaggedObject) (mm : Registry) :
    Except ConcertoError TypeDecl :=
  match obj.classTag with
  | none => .error .missingTypeTag
  | some c =>
    if c = "" then .error .missingTypeTag
    else
      match mm.getType c with
      | none => .error (.unknownType c)
      | some typeDeclaration => .ok typeDeclaration

/-- `getIdentifier(obj, modelManager)`: after the shared precondition, reads
the identifier field name (the source re-reads `modelManager.getType(obj.$class)`,
which is the declaration `checkConcertoObject` already resolved), throws
`NotIdentifiable` when it is falsy, and otherwise returns `obj[idField]`. -/
def getIdentifier (obj : TaggedObject) (mm : Registry) :
    Except ConcertoError (Option String) :=
  match checkConcertoObject obj mm with
  | .error e => .error e
  | .ok typeDeclaration =>
    let idField := typeDeclaration.getIdentifierFieldName
    if idField.falsy then .error .notIdentifiable
    else .ok (obj.getField idField.toPropertyKey)

/-- `isIdentifiable(obj, modelManager)`: after the shared precondition,
returns `idField !== null` — a strict comparison, so an `undefined` or
empty-string identifier field name still counts as identifiable. -/
def isIdentifiable (obj : TaggedObject) (mm : Registry) :
    Except ConcertoError Bool :=
  match checkConcertoObject obj mm with
  | .error e => .error e
  | .ok typeDeclaration =>
    .ok (decide (typeDeclaration.getIdentifierFieldName ≠ JsStr.jsNull))

/-- `isRelationship(obj, modelManager)`: after the shared precondition,
`obj.$relationship === true`. -/
def isRelationship (obj : TaggedObject) (mm : Registry) :
    Except ConcertoError Bool :=
  match checkConcertoObject obj mm with
  | .error e => .error e
  | .ok _ => .ok (obj.relationship == some true)

/-- `setIdentifier(obj, modelManager, id)`, returning the updated object (the
source mutates `obj` in place). The source reads the identifier field name
but never checks it: `obj[idField] = id` runs even when `idField` is `null`
or `undefined`, writing under the coerced property key. -/
def setIdentifier (obj : TaggedObject) (mm : Registry) (id : String) :
    Except ConcertoError TaggedObject :=
  match checkConcertoObject obj mm with
  | .error e => .error e
  | .ok typeDeclaration =>
    let idField := typeDeclaration.getIdentifierFieldName
    .ok (obj.setField idField.toPropertyKey id)

/-- `getFullyQualifiedIdentifier(obj, modelManager)`:
`` `${obj.$class}#${getIdentifier(obj, modelManager)}` ``. -/
def getFullyQualifiedIdentifier (obj : TaggedObject) (mm : Registry) :
    Except ConcertoError String :=
  match checkConcertoObject obj mm with
  | .error e => .error e
  | .ok _ =>
    match getIdentifier obj mm with
    | .error e => .error e
    | .ok id => .ok (obj.classTagString ++ "#" ++ jsValueToString id)

/-- `toURI(obj, modelManager)`:
`` `resource:${obj.$class}#${encodeURI(getIdentifier(obj, modelManager))}` ``.
`encodeURI` is a JavaScript host builtin and is passed in as a parameter. -/
def toURI (encodeURI : String → String) (obj : TaggedObject) (mm : Registry) :
    Except ConcertoError String :=
  match checkConcertoObject obj mm with
  | .error e => .error e
  | .ok _ =>
    match getIdentifier obj mm with
    | .error e => .error e
    | .ok id =>
      .ok ("resource:" ++ obj.classTagString ++ "#" ++ encodeURI (jsValueToString id))

/-- `getType(obj, modelManager)`: the short name of the discriminator. -/
def getType (obj : TaggedObject) (mm : Registry) : Except ConcertoError String :=
  match checkConcertoObject obj mm with
  | .error e => .error e
  | .ok _ => .ok (ModelUtil.getShortName obj.classTagString)

/-- `getNamespace(obj, modelManager)`: the namespace of the discriminator. -/
def getNamespace (obj : TaggedObject) (mm : Registry) :
    Except ConcertoError String :=
  match checkConcertoObject obj mm with
  | .error e => .error e
  | .ok _ => ModelUtil.getNamespace obj.classTagString

/-- The `while (superTypeDeclaration)` loop of `instanceOf`: walk the
direct-supertype chain upward from a declaration, comparing each ancestor's
fully-qualified name with the target. -/
def superChainContains (fqt : String) : TypeDecl → Bool
  | .mk _ none _ _ => false
  | .mk _ (some p) _ _ =>
    decide (p.getFullyQualifiedName = fqt) || superChainContains fqt p

/-- The sequence of ancestors visited by the `instanceOf` loop: the
declarations reached by repeatedly following the direct-supertype link. -/
def superChain : TypeDecl → List TypeDecl
  | .mk _ none _ _ => []
  | .mk _ (some p) _ _ => p :: superChain p

/-- `instanceOf(obj, modelManager, fqt)`: exact-match check on the resolved
declaration first, then the single-inheritance chain walk. -/
def instanceOf (obj : TaggedObject) (mm : Registry) (fqt : String) :
    Except ConcertoError Bool :=
  match checkConcertoObject obj mm with
  | .error e => .error e
  | .ok classDeclaration =>
    if classDeclaration.getFullyQualifiedName = fqt then .ok true
    else .ok (superChainContains fqt classDeclaration)

end Concerto

/-! ## Concrete fixtures used by the witnesses -/

/-- Declaration `org.acme.A`, root of the test chain, identified by `aId`. -/
def aDecl : TypeDecl := .mk "org.acme.A" none [] (.str "aId")

/-- Declaration `org.acme.B extends org.acme.A`. -/
def bDecl : TypeDecl := .mk "org.acme.B" (some aDecl) [aDecl] (.str "aId")

/-- Declaration `org.acme.C extends org.acme.B extends org.acme.A`. -/
def cDecl : TypeDecl := .mk "org.acme.C" (some bDecl) [bDecl, aDecl] (.str "aId")

/-- Declaration `org.acme.T`, whose identifier field name is `null`. -/
def tDecl : TypeDecl := .mk "org.acme.T" none [] .jsNull

/-- Declaration `org.acme.U`, whose identifier field name is `undefined`. -/
def uDecl : TypeDecl := .mk "org.acme.U" none [] .jsUndefined

/-- A registry holding the five test declarations. -/
def testRegistry : Registry := fun s =>
  if s = "org.acme.A" then some aDecl
  else if s = "org.acme.B" then some bDecl
  else if s = "org.acme.C" then some cDecl
  else if s = "org.acme.T" then some tDecl
  else if s = "org.acme.U" then some uDecl
  else none

/-- A registry resolving no name at all. -/
def emptyRegistry : Registry := fun _ => none

/-- A tagged object of class `org.acme.C`. -/
def objC : TaggedObject := ⟨some "org.acme.C", none, [("aId", "c1")]⟩

/-- A tagged object of class `org.acme.T` (a type with no identifier field). -/
def objT : TaggedObject := ⟨some "org.acme.T", none, []⟩

/-- A tagged object of class `org.acme.U` (identifier field name `undefined`). -/
def objU : TaggedObject := ⟨some "org.acme.U", none, []⟩

/-- A tagged object lacking the `$class` discriminator. -/
def objNoClass : TaggedObject := ⟨none, none, []⟩

/-- A tagged object whose `$class` is present but is the empty string. -/
def objEmptyClass : TaggedObject := ⟨some "", none, []⟩

/-- A semantic-version validity predicate accepting everything; claims about
`parseNamespace` quantify over the predicate, witnesses instantiate it. -/
def semverAcceptAll : String → Bool := fun _ => true

/-! ## Lemmas about the string primitives -/

theorem lastIndexOf_eq_none (ch : Char) (l : List Char) (h : ch ∉ l) :
    lastIndexOf ch l = none := by
  induction l with
  | nil => rfl
  | cons c cs ih =>
    simp only [List.mem_cons, not_or] at h
    have hc : ¬c = ch := fun hx => h.1 hx.symm
    simp [lastIndexOf, shiftIndex, ih h.2, hc]

theorem lastIndexOf_isSome_of_mem (ch : Char) (l : List Char) (h : ch ∈ l) :
    ∃ i, lastIndexOf ch l = some i := by
  induction l with
  | nil => cases h
  | cons c cs ih =>
    rcases List.mem_cons.mp h with h1 | h2
    · cases hcs : lastIndexOf ch cs with
      | some j => exact ⟨j + 1, by simp [lastIndexOf, shiftIndex, hcs]⟩
      | none => exact ⟨0, by simp [lastIndexOf, shiftIndex, hcs, h1.symm]⟩
    · obtain ⟨j, hj⟩ := ih h2
      exact ⟨j + 1, by simp [lastIndexOf, shiftIndex, hj]⟩

theorem lastIndexOf_decomp (ch : Char) (l : List Char) (i : Nat)
    (h : lastIndexOf ch l = some i) :
    l.take i ++ ch :: l.drop (i + 1) = l := by
  induction l generalizing i with
  | nil => simp [lastIndexOf] at h
  | cons c cs ih =>
    simp only [lastIndexOf] at h
    cases hcs : lastIndexOf ch cs with
    | some j =>
      rw [hcs] at h
      simp only [shiftIndex, Option.some.injEq] at h
      subst h
      simp only [List.take_succ_cons, List.drop_succ_cons, List.cons_append,
        List.cons.injEq, true_and]
      exact ih j hcs
    | none =>
      rw [hcs] at h
      simp only [shiftIndex] at h
      by_cases hc : c = ch
      · rw [if_pos hc] at h
        cases h
        simp [hc]
      · rw [if_neg hc] at h
        cases h

theorem lastIndexOf_concat (ch : Char) (a b : List Char) (hb : ch ∉ b) :
    lastIndexOf ch (a ++ ch :: b) = some a.length := by
  induction a with
  | nil => simp [lastIndexOf, shiftIndex, lastIndexOf_eq_none ch b hb]
  | cons x a' ih => simp [lastIndexOf, shiftIndex, ih]

theorem take_drop_concat (ch : Char) (a b : List Char) :
    (a ++ ch :: b).take a.length = a ∧ (a ++ ch :: b).drop (a.length + 1) = b := by
  induction a with
  | nil => simp
  | cons x a' ih =>
    simp only [List.cons_append, List.length_cons, List.take_succ_cons,
      List.drop_succ_cons, List.cons.injEq, true_and]
    exact ih

theorem consHead_ne_nil (c : Char) (r : List (List Char)) : consHead c r ≠ [] := by
  cases r <;> simp [consHead]

theorem splitChar_ne_nil (sep : Char) (l : List Char) : splitChar sep l ≠ [] := by
  induction l with
  | nil => simp [splitChar]
  | cons c cs ih =>
    by_cases hc : c = sep <;> simp [splitChar, hc, consHead_ne_nil]

theorem splitChar_length (sep : Char) (l : List Char) :
    (splitChar sep l).length = l.count sep + 1 := by
  induction l with
  | nil => rfl
  | cons c cs ih =>
    by_cases hc : c = sep
    · have hstep : splitChar sep (c :: cs) = [] :: splitChar sep cs := by
        simp [splitChar, hc]
      rw [hstep, List.count_cons, List.length_cons, ih]
      simp [hc]
    · cases hcs : splitChar sep cs with
      | nil => exact absurd hcs (splitChar_ne_nil sep cs)
      | cons p ps =>
        have hstep : splitChar sep (c :: cs) = (c :: p) :: ps := by
          simp [splitChar, hc, hcs, consHead]
        rw [hstep, List.count_cons, List.length_cons]
        rw [hcs] at ih
        simp only [List.length_cons] at ih
        have hbe : (c == sep) = false := by simp [hc]
        have hbe2 : (sep == c) = false := by
          have : ¬sep = c := fun h => hc h.symm
          simp [this]
        simp [hbe, hbe2]
        omega

theorem splitChar_of_not_mem (sep : Char) (l : List Char) (h : sep ∉ l) :
    splitChar sep l = [l] := by
  induction l with
  | nil => rfl
  | cons c cs ih =>
    simp only [List.mem_cons, not_or] at h
    have hc : ¬c = sep := fun hx => h.1 hx.symm
    simp [splitChar, hc, ih h.2, consHead]

theorem splitChar_singleton (sep : Char) (l : List Char) (p : List Char)
    (h : splitChar sep l = [p]) : p = l ∧ sep ∉ l := by
  induction l generalizing p with
  | nil =>
    simp only [splitChar, List.cons.injEq, and_true] at h
    simp [h.symm]
  | cons c cs ih =>
    simp only [splitChar] at h
    by_cases hc : c = sep
    · rw [if_pos hc] at h
      simp only [List.cons.injEq] at h
      exact absurd h.2 (splitChar_ne_nil sep cs)
    · rw [if_neg hc] at h
      cases hcs : splitChar sep cs with
      | nil => exact absurd hcs (splitChar_ne_nil sep cs)
      | cons q qs =>
        rw [hcs] at h
        simp only [consHead, List.cons.injEq] at h
        obtain ⟨h1, h2⟩ := h
        subst h2
        obtain ⟨hq, hmem⟩ := ih q hcs
        subst hq
        subst h1
        refine ⟨rfl, ?_⟩
        simp only [List.mem_cons, not_or]
        exact ⟨fun hx => hc hx.symm, hmem⟩

theorem splitChar_pair (sep : Char) (l : List Char) (p0 p1 : List Char)
    (h : splitChar sep l = [p0, p1]) :
    l = p0 ++ sep :: p1 ∧ sep ∉ p0 ∧ sep ∉ p1 := by
  induction l generalizing p0 with
  | nil => simp [splitChar] at h
  | cons c cs ih =>
    simp only [splitChar] at h
    by_cases hc : c = sep
    · rw [if_pos hc] at h
      simp only [List.cons.injEq] at h
      obtain ⟨h1, h2⟩ := h
      obtain ⟨hq, hmem⟩ := splitChar_singleton sep cs p1 h2
      subst hq
      refine ⟨by simp [h1.symm, hc], by simp [h1.symm], hmem⟩
    · rw [if_neg hc] at h
      cases hcs : splitChar sep cs with
      | nil => exact absurd hcs (splitChar_ne_nil sep cs)
      | cons q qs =>
        rw [hcs] at h
        simp only [consHead, List.cons.injEq] at h
        obtain ⟨h1, h2⟩ := h
        have hpair : splitChar sep cs = [q, p1] := by rw [hcs, h2]
        obtain ⟨hcs2, hq, hp1⟩ := ih q hpair
        subst h1
        refine ⟨by rw [hcs2]; simp, ?_, hp1⟩
        simp only [List.mem_cons, not_or]
        exact ⟨fun hx => hc hx.symm, hq⟩

theorem replaceFirst_not_mem (rep sep : Char) (l : List Char) (h : sep ∉ l) :
    replaceFirst rep sep l = l := by
  induction l with
  | nil => rfl
  | cons c cs ih =>
    simp only [List.mem_cons, not_or] at h
    have hc : ¬c = sep := fun hx => h.1 hx.symm
    simp [replaceFirst, hc, ih h.2]

theorem replaceFirst_concat (rep sep : Char) (a b : List Char) (ha : sep ∉ a) :
    replaceFirst rep sep (a ++ sep :: b) = a ++ rep :: b := by
  induction a with
  | nil => simp [replaceFirst]
  | cons x a' ih =>
    simp only [List.mem_cons, not_or] at ha
    have hx : ¬x = sep := fun h => ha.1 h.symm
    simp [replaceFirst, hx, ih ha.2]

theorem map_replace_not_mem (rep sep : Char) (l : List Char) (h : sep ∉ l) :
    l.map (fun c => if c = sep then rep else c) = l := by
  induction l with
  | nil => rfl
  | cons c cs ih =>
    simp only [List.mem_cons, not_or] at h
    have hc : ¬c = sep := fun hx => h.1 hx.symm
    simp [hc, ih h.2]

theorem concat_sep_inj (sep : Char) (a b : List Char) : ∀ (x y : List Char),
    sep ∉ a → sep ∉ x → a ++ sep :: b = x ++ sep :: y → a = x ∧ b = y := by
  induction a with
  | nil =>
    intro x y _ hx h
    cases x with
    | nil => simpa using h
    | cons u x' =>
      simp only [List.nil_append, List.cons_append, List.cons.injEq] at h
      exact absurd (h.1 ▸ List.mem_cons_self sep x') hx
  | cons c a' ih =>
    intro x y ha hx h
    simp only [List.mem_cons, not_or] at ha
    cases x with
    | nil =>
      simp only [List.cons_append, List.nil_append, List.cons.injEq] at h
      exact absurd h.1 (fun hh => ha.1 hh.symm)
    | cons u x' =>
      simp only [List.cons_append, List.cons.injEq] at h
      simp only [List.mem_cons, not_or] at hx
      obtain ⟨h1, h2⟩ := ih x' y ha.2 hx.2 h.2
      exact ⟨by rw [h.1, h1], h2⟩

theorem mk_append (a b : List Char) :
    String.mk a ++ String.mk b = String.mk (a ++ b) := rfl

theorem mk_toList (s : String) : String.mk s.toList = s := rfl

theorem toList_append (a b : String) :
    (a ++ b).toList = a.toList ++ b.toList := by
  cases a
  cases b
  rfl

theorem ne_empty_of_toList_ne_nil (s : String) (h : s.toList ≠ []) : s ≠ "" :=
  fun hs => h (by rw [hs]; rfl)

/-! ## Lemmas about the embedded operations -/

theorem superChainContains_iff (fqt : String) (d : TypeDecl) :
    Concerto.superChainContains fqt d = true ↔
      ∃ a ∈ Concerto.superChain d, a.getFullyQualifiedName = fqt := by
  induction d using Concerto.superChainContains.induct fqt with
  | case1 f a i => simp [Concerto.superChainContains, Concerto.superChain]
  | case2 f a i p ih => simp [Concerto.superChainContains, Concerto.superChain, ih]

theorem checkConcertoObject_missing (obj : TaggedObject) (mm : Registry)
    (h : obj.classTag = none ∨ obj.classTag = some "") :
    Concerto.checkConcertoObject obj mm = .error .missingTypeTag := by
  rcases h with h | h <;> simp [Concerto.checkConcertoObject, h]

theorem checkConcertoObject_unknown (obj : TaggedObject) (mm : Registry)
    (c : String) (h1 : obj.classTag = some c) (h2 : c ≠ "")
    (h3 : mm.getType c = none) :
    Concerto.checkConcertoObject obj mm = .error (.unknownType c) := by
  simp [Concerto.checkConcertoObject, h1, h2, h3]

theorem checkConcertoObject_ok (obj : TaggedObject) (mm : Registry)
    (c : String) (d : TypeDecl) (h1 : obj.classTag = some c) (h2 : c ≠ "")
    (h3 : mm.getType c = some d) :
    Concerto.checkConcertoObject obj mm = .ok d := by
  simp [Concerto.checkConcertoObject, h1, h2, h3]

theorem checkConcertoObject_error_kinds (obj : TaggedObject) (mm : Registry)
    (e : ConcertoError) (h : Concerto.checkConcertoObject obj mm = .error e) :
    e = .missingTypeTag ∨ ∃ t, e = .unknownType t := by
  cases hcl : obj.classTag with
  | none =>
    rw [checkConcertoObject_missing obj mm (Or.inl hcl)] at h
    cases h
    exact Or.inl rfl
  | some c =>
    by_cases hc : c = ""
    · rw [checkConcertoObject_missing obj mm (Or.inr (hc ▸ hcl))] at h
      cases h
      exact Or.inl rfl
    · cases hmm : mm.getType c with
      | none =>
        rw [checkConcertoObject_unknown obj mm c hcl hc hmm] at h
        cases h
        exact Or.inr ⟨c, rfl⟩
      | some d =>
        rw [checkConcertoObject_ok obj mm c d hcl hc hmm] at h
        cases h

theorem isPrimitiveType_eq_false (s : String)
    (h : s ∉ ["Boolean", "String", "DateTime", "Double", "Integer", "Long"]) :
    ModelUtil.isPrimitiveType s = false := by
  simp only [ModelUtil.isPrimitiveType, ModelUtil.primitiveTypes]
  exact decide_eq_false h

theorem isPrimitiveType_eq_true (s : String)
    (h : s ∈ ["Boolean", "String", "DateTime", "Double", "Integer", "Long"]) :
    ModelUtil.isPrimitiveType s = true := by
  simp only [ModelUtil.isPrimitiveType, ModelUtil.primitiveTypes]
  exact decide_eq_true h

/-! ## Claim C1 (corrected) -/

/-- Claim C1, counterexample: the registry resolves `org.acme.T` to a type
declaring no identifier field, so `getIdentifier` fails with
`NotIdentifiable`; but `setIdentifier`, contrary to the claim, does not fail
— it succeeds and mutates the object, storing the identifier under the
coerced property key `"null"`. -/
theorem claim_C1_counterexample :
    Concerto.getIdentifier objT testRegistry =
      Except.error ConcertoError.notIdentifiable ∧
    Concerto.setIdentifier objT testRegistry "x1" =
      Except.ok ⟨some "org.acme.T", none, [("null", "x1")]⟩ :=
  ⟨rfl, rfl⟩

/-- Claim C1, amended: `setIdentifier` fails exactly when the shared
precondition `checkConcertoObject` fails, with the same error, and produces no
mutation in that case; when the precondition succeeds the write is
unconditional — `setIdentifier` never fails with `NotIdentifiable`, and for a
type declaring no identifier field it stores `id` under the property key
obtained by coercing the absent field name (`"null"`/`"undefined"`). -/
theorem claim_C1 (obj : TaggedObject) (mm : Registry) (id : String) :
    (∀ e, Concerto.checkConcertoObject obj mm = .error e →
      Concerto.setIdentifier obj mm id = .error e) ∧
    (∀ d, Concerto.checkConcertoObject obj mm = .ok d →
      Concerto.setIdentifier obj mm id =
        .ok (obj.setField d.getIdentifierFieldName.toPropertyKey id)) ∧
    Concerto.setIdentifier obj mm id ≠ .error .notIdentifiable := by
  refine ⟨?_, ?_, ?_⟩
  · intro e he
    simp [Concerto.setIdentifier, he]
  · intro d hd
    simp [Concerto.setIdentifier, hd]
  · intro hcontra
    cases hchk : Concerto.checkConcertoObject obj mm with
    | error e =>
      have h1 : Concerto.setIdentifier obj mm id = .error e := by
        simp [Concerto.setIdentifier, hchk]
      rw [h1] at hcontra
      injection hcontra with he
      subst he
      rcases checkConcertoObject_error_kinds obj mm _ hchk with h | ⟨t, h⟩
      · exact ConcertoError.noConfusion h
      · exact ConcertoError.noConfusion h
    | ok d =>
      have h1 : Concerto.setIdentifier obj mm id =
          .ok (obj.setField d.getIdentifierFieldName.toPropertyKey id) := by
        simp [Concerto.setIdentifier, hchk]
      rw [h1] at hcontra
      exact Except.noConfusion hcontra

/-- Claim C1, witness: the amended theorem evaluated at `org.acme.T` (write
under the coerced key) and at an object lacking `$class` (precondition error
propagated, no mutation). -/
theorem claim_C1_witness :
    Concerto.setIdentifier objT testRegistry "x1" =
      Except.ok (objT.setField JsStr.jsNull.toPropertyKey "x1") ∧
    Concerto.setIdentifier objNoClass testRegistry "x1" =
      Except.error ConcertoError.missingTypeTag :=
  ⟨(claim_C1 objT testRegistry "x1").2.1 tDecl rfl,
   (claim_C1 objNoClass testRegistry "x1").1 ConcertoError.missingTypeTag rfl⟩

/-! ## Claim C2 (confirmed) -/

/-- Claim C2: `isAssignableTo` returns `true` immediately on a direct name
match (primitives included); otherwise returns `false` when either name is in
the fixed primitive set; otherwise fails with `UnknownType` when the type name
does not resolve; otherwise returns `true` exactly when the property's
declared type is the fully-qualified name of some declaration in the resolved
type's transitive supertype set. -/
theorem claim_C2 (modelFile : Registry) (typeName : String) (property : Property) :
    (typeName = property.getFullyQualifiedTypeName →
      ModelUtil.isAssignableTo modelFile typeName property = .ok true) ∧
    (typeName ≠ property.getFullyQualifiedTypeName →
      (typeName ∈ ["Boolean", "String", "DateTime", "Double", "Integer", "Long"] ∨
        property.getFullyQualifiedTypeName ∈
          ["Boolean", "String", "DateTime", "Double", "Integer", "Long"]) →
      ModelUtil.isAssignableTo modelFile typeName property = .ok false) ∧
    (typeName ≠ property.getFullyQualifiedTypeName →
      typeName ∉ ["Boolean", "String", "DateTime", "Double", "Integer", "Long"] →
      property.getFullyQualifiedTypeName ∉
        ["Boolean", "String", "DateTime", "Double", "Integer", "Long"] →
      modelFile.getType typeName = none →
      ModelUtil.isAssignableTo modelFile typeName property =
        .error (.unknownType typeName)) ∧
    (∀ d, typeName ≠ property.getFullyQualifiedTypeName →
      typeName ∉ ["Boolean", "String", "DateTime", "Double", "Integer", "Long"] →
      property.getFullyQualifiedTypeName ∉
        ["Boolean", "String", "DateTime", "Double", "Integer", "Long"] →
      modelFile.getType typeName = some d →
      (ModelUtil.isAssignableTo modelFile typeName property = .ok true ↔
        ∃ t ∈ d.getAllSuperTypeDeclarations,
          t.getFullyQualifiedName = property.getFullyQualifiedTypeName)) := by
  refine ⟨?_, ?_, ?_, ?_⟩
  · intro h
    subst h
    simp [ModelUtil.isAssignableTo]
  · intro hne hprim
    have hbe : (typeName == property.getFullyQualifiedTypeName) = false := by
      simp [hne]
    rcases hprim with h | h
    · simp [ModelUtil.isAssignableTo, hbe, isPrimitiveType_eq_true _ h]
    · simp [ModelUtil.isAssignableTo, hbe, isPrimitiveType_eq_true _ h]
  · intro hne hp1 hp2 hres
    have hbe : (typeName == property.getFullyQualifiedTypeName) = false := by
      simp [hne]
    simp [ModelUtil.isAssignableTo, hbe, isPrimitiveType_eq_false _ hp1,
      isPrimitiveType_eq_false _ hp2, hres]
  · intro d hne hp1 hp2 hres
    have hbe : (typeName == property.getFullyQualifiedTypeName) = false := by
      simp [hne]
    have h1 : ModelUtil.isAssignableTo modelFile typeName property =
        .ok (d.getAllSuperTypeDeclarations.any
          (fun t => t.getFullyQualifiedName == property.getFullyQualifiedTypeName)) := by
      simp [ModelUtil.isAssignableTo, hbe, isPrimitiveType_eq_false _ hp1,
        isPrimitiveType_eq_false _ hp2, hres]
    rw [h1]
    simp [List.any_eq_true]

/-- Claim C2, witness: reflexivity at `org.acme.C`; widening up the chain
`C extends B extends A` is allowed; narrowing from `A` down to `C` is not. -/
theorem claim_C2_witness :
    ModelUtil.isAssignableTo testRegistry "org.acme.C" ⟨"org.acme.C"⟩ =
      Except.ok true ∧
    ModelUtil.isAssignableTo testRegistry "org.acme.C" ⟨"org.acme.A"⟩ =
      Except.ok true ∧
    ModelUtil.isAssignableTo testRegistry "org.acme.A" ⟨"org.acme.C"⟩ ≠
      Except.ok true :=
  ⟨(claim_C2 testRegistry "org.acme.C" ⟨"org.acme.C"⟩).1 rfl,
   ((claim_C2 testRegistry "org.acme.C" ⟨"org.acme.A"⟩).2.2.2 cDecl
     (by decide) (by decide) (by decide) rfl).mpr
     ⟨aDecl, List.mem_cons_of_mem bDecl (List.mem_cons_self aDecl []), rfl⟩,
   fun h => by
     obtain ⟨t, ht, _⟩ :=
       ((claim_C2 testRegistry "org.acme.A" ⟨"org.acme.C"⟩).2.2.2 aDecl
         (by decide) (by decide) (by decide) rfl).mp h
     exact absurd ht (List.not_mem_nil t)⟩

/-! ## Claim C3 (confirmed) -/

/-- Claim C3: for a valid tagged object, `instanceOf` succeeds and returns
`true` exactly when the target equals the resolved declaration's
fully-qualified name or the fully-qualified name of some ancestor reached by
repeatedly following the direct-supertype link; it returns `false` when the
chain is exhausted without a match — in particular for unrelated type names
and for strict descendants, whose names do not occur on the upward chain. -/
theorem claim_C3 (obj : TaggedObject) (mm : Registry) (c : String)
    (d : TypeDecl) (fqt : String) (hobj : obj.classTag = some c)
    (hc : c ≠ "") (hmm : mm.getType c = some d) :
    ∃ b, Concerto.instanceOf obj mm fqt = .ok b ∧
      (b = true ↔ (d.getFullyQualifiedName = fqt ∨
        ∃ a ∈ Concerto.superChain d, a.getFullyQualifiedName = fqt)) := by
  have hchk := checkConcertoObject_ok obj mm c d hobj hc hmm
  by_cases hfq : d.getFullyQualifiedName = fqt
  · refine ⟨true, ?_, ?_⟩
    · simp [Concerto.instanceOf, hchk, hfq]
    · simp [hfq]
  · refine ⟨Concerto.superChainContains fqt d, ?_, ?_⟩
    · simp [Concerto.instanceOf, hchk, hfq]
    · rw [superChainContains_iff]
      simp [hfq]

/-- Claim C3, witness: the object of class `org.acme.C` is an instance of its
ancestor `org.acme.A`. -/
theorem claim_C3_witness :
    Concerto.instanceOf objC testRegistry "org.acme.A" = Except.ok true := by
  obtain ⟨b, hb, hiff⟩ :=
    claim_C3 objC testRegistry "org.acme.C" cDecl "org.acme.A" rfl
      (by decide) rfl
  have hbt : b = true :=
    hiff.mpr (Or.inr ⟨aDecl,
      List.mem_cons_of_mem bDecl (List.mem_cons_self aDecl []), rfl⟩)
  rw [hbt] at hb
  exact hb

/-! ## Claim C9 (confirmed) -/

/-- Claim C9: when the resolved declaration's transitive supertype set has the
same members as the set reached by repeatedly following its direct-supertype
link (single inheritance), `isAssignableTo` on a non-primitive resolvable type
name agrees with `instanceOf` on a valid tagged object resolving to the same
declaration, for every non-primitive target name: the two hierarchy walks are
equivalent in membership. -/
theorem claim_C9 (mm : Registry) (typeName targetName c : String)
    (d : TypeDecl) (obj : TaggedObject)
    (hTprim : ModelUtil.isPrimitiveType typeName = false)
    (hPprim : ModelUtil.isPrimitiveType targetName = false)
    (hres : mm.getType typeName = some d)
    (hfqn : d.getFullyQualifiedName = typeName)
    (hobj : obj.classTag = some c) (hc : c ≠ "")
    (hmmc : mm.getType c = some d)
    (hset : ∀ x, x ∈ d.getAllSuperTypeDeclarations ↔ x ∈ Concerto.superChain d) :
    ModelUtil.isAssignableTo mm typeName ⟨targetName⟩ =
      Concerto.instanceOf obj mm targetName := by
  have hchk := checkConcertoObject_ok obj mm c d hobj hc hmmc
  by_cases heq : typeName = targetName
  · subst heq
    have h1 : ModelUtil.isAssignableTo mm typeName ⟨typeName⟩ = .ok true := by
      simp [ModelUtil.isAssignableTo, Property.getFullyQualifiedTypeName]
    have h2 : Concerto.instanceOf obj mm typeName = .ok true := by
      simp [Concerto.instanceOf, hchk, hfqn]
    rw [h1, h2]
  · have hbe : (typeName == targetName) = false := by simp [heq]
    have h1 : ModelUtil.isAssignableTo mm typeName ⟨targetName⟩ =
        .ok (d.getAllSuperTypeDeclarations.any
          (fun t => t.getFullyQualifiedName == targetName)) := by
      simp [ModelUtil.isAssignableTo, Property.getFullyQualifiedTypeName,
        hbe, hTprim, hPprim, hres]
    have hne : d.getFullyQualifiedName ≠ targetName := by
      rw [hfqn]; exact heq
    have h2 : Concerto.instanceOf obj mm targetName =
        .ok (Concerto.superChainContains targetName d) := by
      simp [Concerto.instanceOf, hchk, hne]
    rw [h1, h2]
    congr 1
    cases hany : d.getAllSuperTypeDeclarations.any
        (fun t => t.getFullyQualifiedName == targetName) with
    | true =>
      obtain ⟨t, htmem, htf⟩ := List.any_eq_true.mp hany
      have htf2 : t.getFullyQualifiedName = targetName := by simpa using htf
      exact ((superChainContains_iff targetName d).mpr
        ⟨t, (hset t).mp htmem, htf2⟩).symm
    | false =>
      cases hsc : Concerto.superChainContains targetName d with
      | false => rfl
      | true =>
        obtain ⟨a, hamem, haf⟩ := (superChainContains_iff targetName d).mp hsc
        have hany2 : d.getAllSuperTypeDeclarations.any
            (fun t => t.getFullyQualifiedName == targetName) = true :=
          List.any_eq_true.mpr ⟨a, (hset a).mpr hamem, by simpa using haf⟩
        rw [hany] at hany2
        exact Bool.noConfusion hany2

/-- Claim C9, witness: the two walks agree on the concrete chain
`C extends B extends A`, whose transitive supertype list equals its
direct-supertype chain. -/
theorem claim_C9_witness :
    ModelUtil.isAssignableTo testRegistry "org.acme.C" ⟨"org.acme.A"⟩ =
      Concerto.instanceOf objC testRegistry "org.acme.A" :=
  claim_C9 testRegistry "org.acme.C" "org.acme.A" "org.acme.C" cDecl objC
    (by decide) (by decide) rfl rfl rfl (by decide) rfl (fun _ => Iff.rfl)

/-! ## Claim C10 (confirmed) -/

/-- Claim C10: for a valid tagged object, `isIdentifiable` returns exactly
the strict comparison `getIdentifierFieldName() !== null`; in particular it
returns `true` when that result is `undefined` or the empty string, two cases
in which `getIdentifier` nevertheless fails with `NotIdentifiable` — so
`isIdentifiable` returning `true` does not guarantee `getIdentifier`
succeeds. -/
theorem claim_C10 (obj : TaggedObject) (mm : Registry) (c : String)
    (d : TypeDecl) (hobj : obj.classTag = some c) (hc : c ≠ "")
    (hmm : mm.getType c = some d) :
    Concerto.isIdentifiable obj mm =
      .ok (decide (d.getIdentifierFieldName ≠ JsStr.jsNull)) ∧
    ((d.getIdentifierFieldName = JsStr.jsUndefined ∨
      d.getIdentifierFieldName = JsStr.str "") →
      Concerto.isIdentifiable obj mm = .ok true ∧
      Concerto.getIdentifier obj mm = .error .notIdentifiable) := by
  have hchk := checkConcertoObject_ok obj mm c d hobj hc hmm
  constructor
  · simp [Concerto.isIdentifiable, hchk]
  · intro hid
    constructor
    · rcases hid with h | h <;> simp [Concerto.isIdentifiable, hchk, h]
    · rcases hid with h | h <;>
        simp [Concerto.getIdentifier, hchk, h, JsStr.falsy]

/-- Claim C10, witness: `org.acme.U` reports an `undefined` identifier field
name; `isIdentifiable` answers `true` while `getIdentifier` fails. -/
theorem claim_C10_witness :
    Concerto.isIdentifiable objU testRegistry = Except.ok true ∧
    Concerto.getIdentifier objU testRegistry =
      Except.error ConcertoError.notIdentifiable :=
  (claim_C10 objU testRegistry "org.acme.U" uDecl rfl (by decide) rfl).2
    (Or.inl rfl)

/-! ## Claim C6 (confirmed) -/

/-- Claim C6: for every non-empty `fqn` containing at least one dot,
`getNamespace(fqn) + "." + getShortName(fqn)` recomposes `fqn`; for every
non-empty `fqn` containing no dot, `getNamespace` returns the empty string
and `getShortName` returns `fqn` unchanged. -/
theorem claim_C6 (fqn : String) (hne : fqn ≠ "") :
    ('.' ∈ fqn.toList →
      ∃ ns, ModelUtil.getNamespace fqn = .ok ns ∧
        ns ++ "." ++ ModelUtil.getShortName fqn = fqn) ∧
    ('.' ∉ fqn.toList →
      ModelUtil.getNamespace fqn = .ok "" ∧
      ModelUtil.getShortName fqn = fqn) := by
  constructor
  · intro hmem
    obtain ⟨i, hi⟩ := lastIndexOf_isSome_of_mem '.' fqn.toList hmem
    have hi2 : lastIndexOf '.' fqn.data = some i := hi
    refine ⟨String.mk (fqn.toList.take i), ?_, ?_⟩
    · simp [ModelUtil.getNamespace, hne, hi, hi2]
    · have hshort : ModelUtil.getShortName fqn =
          String.mk (fqn.toList.drop (i + 1)) := by
        simp [ModelUtil.getShortName, hi, hi2]
      have hdot : ("." : String) = String.mk ['.'] := rfl
      rw [hshort, hdot, mk_append, mk_append, List.append_assoc,
        List.singleton_append, lastIndexOf_decomp '.' fqn.toList i hi]
      exact mk_toList fqn
  · intro hmem
    have hnone := lastIndexOf_eq_none '.' fqn.toList hmem
    have hnone2 : lastIndexOf '.' fqn.data = none := hnone
    constructor
    · simp [ModelUtil.getNamespace, hne, hnone, hnone2]
    · simp [ModelUtil.getShortName, hnone, hnone2]

/-- Claim C6, witness: recomposition at `"org.acme.Person"` and the dotless
case at `"Person"`. -/
theorem claim_C6_witness :
    (∃ ns, ModelUtil.getNamespace "org.acme.Person" = Except.ok ns ∧
      ns ++ "." ++ ModelUtil.getShortName "org.acme.Person" =
        "org.acme.Person") ∧
    (ModelUtil.getNamespace "Person" = Except.ok "" ∧
      ModelUtil.getShortName "Person" = "Person") :=
  ⟨(claim_C6 "org.acme.Person" (by decide)).1 (by decide),
   (claim_C6 "Person" (by decide)).2 (by decide)⟩

/-! ## Claim C7 (confirmed) -/

/-- Claim C7: for a non-empty namespace and a dot-free type name,
`getNamespace` and `getShortName` invert `getFullyQualifiedName`; for an
empty namespace, `getFullyQualifiedName` returns the type name unchanged. -/
theorem claim_C7 (ns t : String) :
    (ns ≠ "" → '.' ∉ t.toList →
      ModelUtil.getNamespace (ModelUtil.getFullyQualifiedName ns t) =
        Except.ok ns ∧
      ModelUtil.getShortName (ModelUtil.getFullyQualifiedName ns t) = t) ∧
    (ns = "" → ModelUtil.getFullyQualifiedName ns t = t) := by
  constructor
  · intro hns ht
    have hfqn : ModelUtil.getFullyQualifiedName ns t = ns ++ "." ++ t := by
      simp [ModelUtil.getFullyQualifiedName, hns]
    have hlist : (ns ++ "." ++ t).toList = ns.toList ++ '.' :: t.toList := by
      rw [toList_append, toList_append, List.append_assoc]
      rfl
    have hlast : lastIndexOf '.' (ns ++ "." ++ t).toList =
        some ns.toList.length := by
      rw [hlist]
      exact lastIndexOf_concat '.' ns.toList t.toList ht
    have htd := take_drop_concat '.' ns.toList t.toList
    have hne2 : ns ++ "." ++ t ≠ "" :=
      ne_empty_of_toList_ne_nil _ (by rw [hlist]; simp)
    constructor
    · rw [hfqn]
      simp only [ModelUtil.getNamespace, if_neg hne2, hlast]
      rw [hlist, htd.1, mk_toList]
    · rw [hfqn]
      simp only [ModelUtil.getShortName, hlast]
      rw [hlist, htd.2, mk_toList]
  · intro hns
    simp [ModelUtil.getFullyQualifiedName, hns]

/-- Claim C7, witness: inversion at namespace `"org.acme"` and type
`"Person"`, and the empty-namespace case. -/
theorem claim_C7_witness :
    (ModelUtil.getNamespace (ModelUtil.getFullyQualifiedName "org.acme" "Person") =
      Except.ok "org.acme" ∧
     ModelUtil.getShortName (ModelUtil.getFullyQualifiedName "org.acme" "Person") =
      "Person") ∧
    ModelUtil.getFullyQualifiedName "" "Person" = "Person" :=
  ⟨(claim_C7 "org.acme" "Person").1 (by decide) (by decide),
   (claim_C7 "" "Person").2 rfl⟩

/-! ## Characterization of parseNamespace -/

theorem splitChar_concat (sep : Char) (a b : List Char) (ha : sep ∉ a) :
    splitChar sep (a ++ sep :: b) = a :: splitChar sep b := by
  induction a with
  | nil => simp [splitChar]
  | cons x a' ih =>
    simp only [List.mem_cons, not_or] at ha
    have hx : ¬x = sep := fun h => ha.1 h.symm
    simp only [List.cons_append, splitChar, if_neg hx, List.append_eq,
      ih ha.2, consHead]

theorem parseNamespace_no_at (v : String → Bool) (ns : String) (hne : ns ≠ "")
    (h : '@' ∉ ns.toList) :
    ModelUtil.parseNamespace v ns =
      .ok { name := ns, escapedNamespace := ns,
            version := none, versionParsed := none } := by
  have hsp := splitChar_of_not_mem '@' ns.toList h
  have hrep := replaceFirst_not_mem '_' '@' ns.toList h
  simp only [ModelUtil.parseNamespace, if_neg hne, hsp, hrep, mk_toList]

theorem parseNamespace_one_at_valid (v : String → Bool) (ns : String)
    (a b : List Char) (hdecomp : ns.toList = a ++ '@' :: b) (ha : '@' ∉ a)
    (hb : '@' ∉ b) (hv : v (String.mk b) = true) :
    ModelUtil.parseNamespace v ns =
      .ok { name := String.mk a, escapedNamespace := String.mk (a ++ '_' :: b),
            version := some (String.mk b),
            versionParsed := some (String.mk b) } := by
  have hne : ns ≠ "" := ne_empty_of_toList_ne_nil ns (by rw [hdecomp]; simp)
  have hsp : splitChar '@' ns.toList = [a, b] := by
    rw [hdecomp, splitChar_concat '@' a b ha, splitChar_of_not_mem '@' b hb]
  simp only [ModelUtil.parseNamespace, if_neg hne, hsp, hv, if_true]
  rw [hdecomp, replaceFirst_concat '_' '@' a b ha]

theorem parseNamespace_one_at_invalid (v : String → Bool) (ns : String)
    (a b : List Char) (hdecomp : ns.toList = a ++ '@' :: b) (ha : '@' ∉ a)
    (hb : '@' ∉ b) (hv : v (String.mk b) = false) :
    ModelUtil.parseNamespace v ns =
      .error (.invalidArgument ("Invalid namespace " ++ ns)) := by
  have hne : ns ≠ "" := ne_empty_of_toList_ne_nil ns (by rw [hdecomp]; simp)
  have hsp : splitChar '@' ns.toList = [a, b] := by
    rw [hdecomp, splitChar_concat '@' a b ha, splitChar_of_not_mem '@' b hb]
  simp only [ModelUtil.parseNamespace, if_neg hne, hsp, hv]
  simp

theorem parseNamespace_many_at (v : String → Bool) (ns : String)
    (hne : ns ≠ "") (hcount : 1 < ns.toList.count '@') :
    ModelUtil.parseNamespace v ns =
      .error (.invalidArgument ("Invalid namespace " ++ ns)) := by
  have hlen : 2 < (splitChar '@' ns.toList).length := by
    rw [splitChar_length]
    omega
  cases hsp : splitChar '@' ns.toList with
  | nil => exact absurd hsp (splitChar_ne_nil _ _)
  | cons p0 rest0 =>
    cases rest0 with
    | nil =>
      rw [hsp] at hlen
      simp at hlen
    | cons p1 rest1 =>
      cases rest1 with
      | nil =>
        rw [hsp] at hlen
        simp at hlen
      | cons p2 rest2 =>
        simp only [ModelUtil.parseNamespace, if_neg hne, hsp]

/-! ## Claim C4 (confirmed) -/

/-- Claim C4: whenever `parseNamespace` succeeds, the returned `name` is the
segment before the `@` (the whole string when no `@` is present),
`escapedNamespace` is the input with every `@` replaced by `_`, and
`version`/`versionParsed` are present exactly when an `@` was present, with
`version` being the segment after the `@`. -/
theorem claim_C4 (v : String → Bool) (ns : String)
    (r : ModelUtil.ParseNamespaceResult)
    (h : ModelUtil.parseNamespace v ns = .ok r) :
    r.escapedNamespace =
      String.mk (ns.toList.map (fun ch => if ch = '@' then '_' else ch)) ∧
    (r.version ≠ none ↔ '@' ∈ ns.toList) ∧
    (r.versionParsed ≠ none ↔ '@' ∈ ns.toList) ∧
    ('@' ∉ ns.toList → r.name = ns) ∧
    (∀ a b, ns.toList = a ++ '@' :: b → '@' ∉ a →
      r.name = String.mk a ∧ r.version = some (String.mk b)) := by
  have hne : ns ≠ "" := by
    intro he
    rw [he] at h
    simp [ModelUtil.parseNamespace] at h
  cases hsp : splitChar '@' ns.toList with
  | nil => exact absurd hsp (splitChar_ne_nil _ _)
  | cons p0 rest0 =>
    cases rest0 with
    | nil =>
      obtain ⟨hp0, hmem⟩ := splitChar_singleton '@' ns.toList p0 hsp
      rw [parseNamespace_no_at v ns hne hmem] at h
      injection h with h
      subst h
      refine ⟨?_, ?_, ?_, ?_, ?_⟩
      · rw [map_replace_not_mem '_' '@' ns.toList hmem]
        rfl
      · exact ⟨fun hver => absurd rfl hver, fun hin => absurd hin hmem⟩
      · exact ⟨fun hver => absurd rfl hver, fun hin => absurd hin hmem⟩
      · intro _; rfl
      · intro a b hab _
        exact absurd (by rw [hab]; simp : '@' ∈ ns.toList) hmem
    | cons p1 rest1 =>
      cases rest1 with
      | nil =>
        obtain ⟨hdecomp, ha, hb⟩ := splitChar_pair '@' ns.toList p0 p1 hsp
        have hmem : '@' ∈ ns.toList := by rw [hdecomp]; simp
        cases hv : v (String.mk p1) with
        | false =>
          rw [parseNamespace_one_at_invalid v ns p0 p1 hdecomp ha hb hv] at h
          exact Except.noConfusion h
        | true =>
          rw [parseNamespace_one_at_valid v ns p0 p1 hdecomp ha hb hv] at h
          injection h with h
          subst h
          refine ⟨?_, ?_, ?_, ?_, ?_⟩
          · show String.mk (p0 ++ '_' :: p1) = _
            rw [hdecomp]
            simp [map_replace_not_mem '_' '@' p0 ha,
              map_replace_not_mem '_' '@' p1 hb]
          · exact ⟨fun _ => hmem, fun _ hx => Option.noConfusion hx⟩
          · exact ⟨fun _ => hmem, fun _ hx => Option.noConfusion hx⟩
          · intro hnot
            exact absurd hmem hnot
          · intro a b hab hana
            obtain ⟨h1, h2⟩ :=
              concat_sep_inj '@' p0 p1 a b ha hana (hdecomp.symm.trans hab)
            exact ⟨by rw [h1], by rw [h2]⟩
      | cons p2 rest2 =>
        have hcount : 1 < ns.toList.count '@' := by
          have hl := splitChar_length '@' ns.toList
          rw [hsp] at hl
          simp only [List.length_cons] at hl
          omega
        rw [parseNamespace_many_at v ns hne hcount] at h
        exact Except.noConfusion h

/-- Claim C4, witness: `parseNamespace("org.acme@1.2.3")` succeeds with name
`org.acme`, escaped namespace `org.acme_1.2.3` and version `1.2.3`, and the
escaped namespace equals the replace-all form. -/
theorem claim_C4_witness :
    ModelUtil.parseNamespace semverAcceptAll "org.acme@1.2.3" =
      Except.ok ⟨"org.acme", "org.acme_1.2.3", some "1.2.3", some "1.2.3"⟩ ∧
    ("org.acme_1.2.3" : String) =
      String.mk ("org.acme@1.2.3".toList.map
        (fun ch => if ch = '@' then '_' else ch)) :=
  ⟨rfl, (claim_C4 semverAcceptAll "org.acme@1.2.3"
      ⟨"org.acme", "org.acme_1.2.3", some "1.2.3", some "1.2.3"⟩ rfl).1⟩

/-! ## Claim C8 (confirmed) -/

/-- Claim C8: `parseNamespace` fails — always with `InvalidArgument` — exactly
when the namespace is empty, or contains more than one `@`, or contains
exactly one `@` whose trailing segment the semantic-version test rejects; it
succeeds in every other case. -/
theorem claim_C8 (v : String → Bool) (ns : String) :
    ((∃ msg, ModelUtil.parseNamespace v ns =
        .error (.invalidArgument msg)) ↔
      (ns = "" ∨ 1 < ns.toList.count '@' ∨
        ∃ a b, ns.toList = a ++ '@' :: b ∧ '@' ∉ a ∧ '@' ∉ b ∧
          v (String.mk b) = false)) ∧
    (∀ e, ModelUtil.parseNamespace v ns = .error e →
      ∃ msg, e = .invalidArgument msg) := by
  by_cases hne : ns = ""
  · subst hne
    have hval : ModelUtil.parseNamespace v "" =
        .error (.invalidArgument "Namespace is null or undefined.") := rfl
    refine ⟨⟨fun _ => Or.inl rfl,
      fun _ => ⟨"Namespace is null or undefined.", hval⟩⟩, ?_⟩
    intro e he
    rw [hval] at he
    injection he with he2
    exact ⟨"Namespace is null or undefined.", he2.symm⟩
  · cases hsp : splitChar '@' ns.toList with
    | nil => exact absurd hsp (splitChar_ne_nil _ _)
    | cons p0 rest0 =>
      cases rest0 with
      | nil =>
        obtain ⟨hp0, hmem⟩ := splitChar_singleton '@' ns.toList p0 hsp
        have hok := parseNamespace_no_at v ns hne hmem
        have hcount : ns.toList.count '@' = 0 := List.count_eq_zero.mpr hmem
        refine ⟨⟨?_, ?_⟩, ?_⟩
        · rintro ⟨msg, hmsg⟩
          rw [hok] at hmsg
          exact Except.noConfusion hmsg
        · intro hcond
          rcases hcond with h | h | ⟨a, b, hab, _, _, _⟩
          · exact absurd h hne
          · omega
          · exact absurd (by rw [hab]; simp : '@' ∈ ns.toList) hmem
        · intro e he
          rw [hok] at he
          exact Except.noConfusion he
      | cons p1 rest1 =>
        cases rest1 with
        | nil =>
          obtain ⟨hdecomp, ha, hb⟩ := splitChar_pair '@' ns.toList p0 p1 hsp
          have hcount : ns.toList.count '@' = 1 := by
            have hl := splitChar_length '@' ns.toList
            rw [hsp] at hl
            simp only [List.length_cons, List.length_nil] at hl
            omega
          cases hv : v (String.mk p1) with
          | true =>
            have hok := parseNamespace_one_at_valid v ns p0 p1 hdecomp ha hb hv
            refine ⟨⟨?_, ?_⟩, ?_⟩
            · rintro ⟨msg, hmsg⟩
              rw [hok] at hmsg
              exact Except.noConfusion hmsg
            · intro hcond
              rcases hcond with h | h | ⟨a, b, hab, hana, hbnb, hvf⟩
              · exact absurd h hne
              · omega
              · obtain ⟨h1, h2⟩ :=
                  concat_sep_inj '@' p0 p1 a b ha hana (hdecomp.symm.trans hab)
                rw [← h2, hv] at hvf
                exact Bool.noConfusion hvf
            · intro e he
              rw [hok] at he
              exact Except.noConfusion he
          | false =>
            have herr := parseNamespace_one_at_invalid v ns p0 p1 hdecomp ha hb hv
            refine ⟨⟨?_, ?_⟩, ?_⟩
            · intro _
              exact Or.inr (Or.inr ⟨p0, p1, hdecomp, ha, hb, hv⟩)
            · intro _
              exact ⟨"Invalid namespace " ++ ns, herr⟩
            · intro e he
              rw [herr] at he
              injection he with he2
              exact ⟨"Invalid namespace " ++ ns, he2.symm⟩
        | cons p2 rest2 =>
          have hcount : 1 < ns.toList.count '@' := by
            have hl := splitChar_length '@' ns.toList
            rw [hsp] at hl
            simp only [List.length_cons] at hl
            omega
          have herr := parseNamespace_many_at v ns hne hcount
          refine ⟨⟨?_, ?_⟩, ?_⟩
          · intro _
            exact Or.inr (Or.inl hcount)
          · intro _
            exact ⟨"Invalid namespace " ++ ns, herr⟩
          · intro e he
            rw [herr] at he
            injection he with he2
            exact ⟨"Invalid namespace " ++ ns, he2.symm⟩

/-- Claim C8, witness: `"a@1.0.0@2.0.0"` (two `@`) is rejected with
`InvalidArgument`, while `"org.acme"` is accepted, both obtained from the
equivalence. -/
theorem claim_C8_witness :
    (∃ msg, ModelUtil.parseNamespace semverAcceptAll "a@1.0.0@2.0.0" =
      Except.error (ConcertoError.invalidArgument msg)) ∧
    ¬(∃ msg, ModelUtil.parseNamespace semverAcceptAll "org.acme" =
      Except.error (ConcertoError.invalidArgument msg)) :=
  ⟨(claim_C8 semverAcceptAll "a@1.0.0@2.0.0").1.mpr
      (Or.inr (Or.inl (by decide))),
   fun hx => by
     rcases (claim_C8 semverAcceptAll "org.acme").1.mp hx with
       h | h | ⟨a, b, hab, _, _, _⟩
     · exact absurd h (by decide)
     · revert h
       decide
     · exact absurd (by rw [hab]; simp : '@' ∈ "org.acme".toList) (by decide)⟩

/-! ## Claim C5 (corrected) -/

/-- Claim C5, counterexample: an object whose `$class` field is present but
holds the empty string, against a registry that resolves nothing. The
discriminator value does not resolve, yet the operation fails with
`MissingTypeTag` (the source's falsy `!obj.$class` test fires first), not
with `UnknownType` as the claim requires for an unresolved discriminator. -/
theorem claim_C5_counterexample :
    objEmptyClass.classTag = some "" ∧
    emptyRegistry.getType "" = none ∧
    Concerto.getType objEmptyClass emptyRegistry =
      Except.error ConcertoError.missingTypeTag ∧
    ConcertoError.missingTypeTag ≠ ConcertoError.unknownType "" :=
  ⟨rfl, rfl, rfl, by decide⟩

/-- Claim C5, amended: every introspection operation fails with
`MissingTypeTag` when the object lacks `$class` or its value is the empty
string (the falsy test), and fails with `UnknownType` when the discriminator
is a non-empty string that does not resolve in the registry, before producing
any other result. -/
theorem claim_C5 (obj : TaggedObject) (mm : Registry) (id fqt : String)
    (enc : String → String) :
    ((obj.classTag = none ∨ obj.classTag = some "") →
      Concerto.getIdentifier obj mm = .error .missingTypeTag ∧
      Concerto.isIdentifiable obj mm = .error .missingTypeTag ∧
      Concerto.setIdentifier obj mm id = .error .missingTypeTag ∧
      Concerto.isRelationship obj mm = .error .missingTypeTag ∧
      Concerto.getFullyQualifiedIdentifier obj mm = .error .missingTypeTag ∧
      Concerto.toURI enc obj mm = .error .missingTypeTag ∧
      Concerto.getType obj mm = .error .missingTypeTag ∧
      Concerto.getNamespace obj mm = .error .missingTypeTag ∧
      Concerto.instanceOf obj mm fqt = .error .missingTypeTag) ∧
    (∀ c, obj.classTag = some c → c ≠ "" → mm.getType c = none →
      Concerto.getIdentifier obj mm = .error (.unknownType c) ∧
      Concerto.isIdentifiable obj mm = .error (.unknownType c) ∧
      Concerto.setIdentifier obj mm id = .error (.unknownType c) ∧
      Concerto.isRelationship obj mm = .error (.unknownType c) ∧
      Concerto.getFullyQualifiedIdentifier obj mm = .error (.unknownType c) ∧
      Concerto.toURI enc obj mm = .error (.unknownType c) ∧
      Concerto.getType obj mm = .error (.unknownType c) ∧
      Concerto.getNamespace obj mm = .error (.unknownType c) ∧
      Concerto.instanceOf obj mm fqt = .error (.unknownType c)) := by
  constructor
  · intro h
    have hchk := checkConcertoObject_missing obj mm h
    refine ⟨?_, ?_, ?_, ?_, ?_, ?_, ?_, ?_, ?_⟩ <;>
      simp [Concerto.getIdentifier, Concerto.isIdentifiable,
        Concerto.setIdentifier, Concerto.isRelationship,
        Concerto.getFullyQualifiedIdentifier, Concerto.toURI,
        Concerto.getType, Concerto.getNamespace, Concerto.instanceOf, hchk]
  · intro c h1 h2 h3
    have hchk := checkConcertoObject_unknown obj mm c h1 h2 h3
    refine ⟨?_, ?_, ?_, ?_, ?_, ?_, ?_, ?_, ?_⟩ <;>
      simp [Concerto.getIdentifier, Concerto.isIdentifiable,
        Concerto.setIdentifier, Concerto.isRelationship,
        Concerto.getFullyQualifiedIdentifier, Concerto.toURI,
        Concerto.getType, Concerto.getNamespace, Concerto.instanceOf, hchk]

/-- Claim C5, witness: an object lacking `$class` gives `MissingTypeTag`; an
object with an unresolvable non-empty discriminator gives `UnknownType`. -/
theorem claim_C5_witness :
    Concerto.getType objNoClass testRegistry =
      Except.error ConcertoError.missingTypeTag ∧
    Concerto.instanceOf ⟨some "org.unknown.X", none, []⟩ testRegistry "t" =
      Except.error (ConcertoError.unknownType "org.unknown.X") :=
  ⟨((claim_C5 objNoClass testRegistry "id" "t" (fun s => s)).1
      (Or.inl rfl)).2.2.2.2.2.2.1,
   ((claim_C5 ⟨some "org.unknown.X", none, []⟩ testRegistry "id" "t"
      (fun s => s)).2 "org.unknown.X" rfl (by decide) rfl).2.2.2.2.2.2.2.2⟩
